import Mathlib

/-!
Verification development for the smooth-scroll daemon (smooth-scroll.c).

The velocity / dampening engine is embedded shallowly:

* machine doubles are modelled as exact rationals (the algorithms use only
  +, -, *, comparisons and one division, so the rational model mirrors the
  real-number semantics of the C code);
* the dampening curve compute_scale uses sqrt, so it is modelled over the
  real numbers;
* the C cast (int)x on a double is truncation toward zero, modelled by trunc;
* the two low-res while loops of emit_axis are modelled by fuel-indexed
  structural recursions (the fuel is always sufficient, see the lemmas);
* I/O (writing input events, epoll, timerfd arming) is modelled by returning
  the emitted quantities and the rescheduled deadline as data.
-/

set_option maxRecDepth 40000

/-- Mirror of struct config (smooth-scroll.c lines 69-80); the numeric fields
are rationals, verbose and device_path are I/O-only and omitted. -/
structure config where
  friction : ℚ
  tick_ms : ℤ
  low_rate : ℚ
  high_rate : ℚ
  min_scale : ℚ
  stop_threshold : ℚ
  multiplier : ℚ
  deriving DecidableEq

/-- Mirror of the configuration clamping in main (lines 607-619): friction is
clamped to [0.01, 0.2], tick_ms to [1, 50], multiplier to [0.01, 10]; the
remaining fields are not touched. -/
def clamp_config (c : config) : config :=
  let f1 := if c.friction < 0.01 then (0.01 : ℚ) else c.friction
  let f2 := if f1 > 0.2 then (0.2 : ℚ) else f1
  let t1 := if c.tick_ms < 1 then (1 : ℤ) else c.tick_ms
  let t2 := if t1 > 50 then (50 : ℤ) else t1
  let m1 := if c.multiplier < 0.01 then (0.01 : ℚ) else c.multiplier
  let m2 := if m1 > 10.0 then (10.0 : ℚ) else m1
  { c with friction := f2, tick_ms := t2, multiplier := m2 }

/-- Truncation toward zero: the semantics of the C cast (int)x on a double
(line 467).  For nonnegative arguments it is the floor, for negative ones the
ceiling. -/
def trunc (q : ℚ) : ℤ :=
  if 0 ≤ q then ⌊q⌋ else ⌈q⌉

/-- Hi-res scroll units per coarse wheel tick (line 51): kernel ABI constant. -/
def HIRES_PER_TICK : ℤ := 120

/-- Fuel-indexed model of the first low-res loop of emit_axis (lines 483-487):
while the accumulator is at least 120, emit one +1 coarse event and debit 120.
Returns (number of coarse events, final accumulator).  The fuel only bounds
the recursion; it is always chosen large enough. -/
def drain_pos_go : ℕ → ℤ → ℤ × ℤ
  | 0, a => (0, a)
  | fuel + 1, a =>
    if HIRES_PER_TICK ≤ a then
      let r := drain_pos_go fuel (a - HIRES_PER_TICK)
      (r.1 + 1, r.2)
    else (0, a)

/-- Fuel-indexed model of the second low-res loop of emit_axis (lines 488-492):
while the accumulator is at most -120, emit one -1 coarse event and credit 120.
Returns (number of coarse events, final accumulator). -/
def drain_neg_go : ℕ → ℤ → ℤ × ℤ
  | 0, a => (0, a)
  | fuel + 1, a =>
    if a ≤ -HIRES_PER_TICK then
      let r := drain_neg_go fuel (a + HIRES_PER_TICK)
      (r.1 + 1, r.2)
    else (0, a)

/-- Both low-res loops of emit_axis run in sequence on the accumulator; the
result is (net coarse units emitted, final accumulator).  The first component
counts +1 events positively and -1 events negatively, exactly one event per
120-unit boundary crossed. -/
def lowres_drain (a : ℤ) : ℤ × ℤ :=
  let p := drain_pos_go a.toNat a
  let n := drain_neg_go (-p.2).toNat p.2
  (p.1 - n.1, n.2)

/-- Mirror of struct axis_state (lines 139-145) without the embedded rate
tracker (which does not participate in decay or emission). -/
@[ext]
structure axis_state where
  velocity : ℚ
  emit_accum : ℚ
  lowres_accum : ℤ
  deriving DecidableEq

/-- Result of one emit_axis call: the updated axis state, the fine (hi-res)
units written, the net coarse (REL_WHEEL / REL_HWHEEL) units written, and the
return value (whether any event was written). -/
@[ext]
structure emit_result where
  state : axis_state
  hires : ℤ
  coarse : ℤ
  emitted : Bool
  deriving DecidableEq

/-- Mirror of emit_axis (lines 445-505).  Below the stop threshold the state
is fully reset and nothing is emitted.  Otherwise friction removes a fraction
of the velocity, the removed amount accumulates into emit_accum, the integer
part (truncated toward zero) is emitted as hi-res units, and when hi-res units
were emitted they are accumulated toward the coarse 120-unit boundary. -/
def emit_axis (cfg : config) (as : axis_state) : emit_result :=
  if |as.velocity| < cfg.stop_threshold then
    { state := { velocity := 0, emit_accum := 0, lowres_accum := 0 },
      hires := 0, coarse := 0, emitted := false }
  else
    let old_vel := as.velocity
    let new_vel := as.velocity * (1 - cfg.friction)
    let emit := old_vel - new_vel
    let acc := as.emit_accum + emit
    let emit_int := trunc acc
    let acc2 := acc - (emit_int : ℚ)
    if emit_int ≠ 0 then
      let d := lowres_drain (as.lowres_accum + emit_int)
      { state := { velocity := new_vel, emit_accum := acc2, lowres_accum := d.2 },
        hires := emit_int, coarse := d.1, emitted := true }
    else
      { state := { velocity := new_vel, emit_accum := acc2,
                   lowres_accum := as.lowres_accum },
        hires := 0, coarse := 0, emitted := false }

/-- Impulse arrival (line 876): the scaled raw delta is added to the velocity.
raw is the hi-res equivalent of the input event value, scale comes from the
dampening curve. -/
def add_impulse (cfg : config) (as : axis_state) (raw scale : ℚ) : axis_state :=
  { as with velocity := as.velocity + raw * scale * cfg.multiplier }

/-- Force-emit fallback body (lines 921-927): emit one hi-res unit in the
direction of the current velocity, accumulate it toward the coarse boundary,
debit it from the velocity and clear the fractional remainder.  Returns the
updated state and the emitted unit. -/
def force_emit (as : axis_state) : axis_state × ℤ :=
  let dir : ℤ := if 0 < as.velocity then 1 else -1
  ({ velocity := as.velocity - (dir : ℚ), emit_accum := 0,
     lowres_accum := as.lowres_accum + dir }, dir)

/-- Full impulse-injection path of the event loop (lines 871-939): add the
scaled impulse, run one immediate emission step, and if it emitted nothing
while the remaining velocity is at or above the stop threshold, force-emit one
unit. -/
def inject (cfg : config) (as : axis_state) (raw scale : ℚ) : emit_result :=
  let r := emit_axis cfg (add_impulse cfg as raw scale)
  if r.emitted = false ∧ cfg.stop_threshold ≤ |r.state.velocity| then
    let fe := force_emit r.state
    { state := fe.1, hires := fe.2, coarse := r.coarse, emitted := true }
  else r

/-- Axis state at daemon start (line 777): all zero. -/
def init_state : axis_state :=
  { velocity := 0, emit_accum := 0, lowres_accum := 0 }

/-- Configuration ranges of spec section 3: friction in (0.01, 0.2], tick in
(0, 50] ms, low_rate < high_rate, min_scale in (0, 1], stop_threshold > 0,
multiplier in (0.01, 10]. -/
def ValidConfig (c : config) : Prop :=
  0.01 < c.friction ∧ c.friction ≤ 0.2 ∧
  0 < c.tick_ms ∧ c.tick_ms ≤ 50 ∧
  c.low_rate < c.high_rate ∧
  0 < c.min_scale ∧ c.min_scale ≤ 1 ∧
  0 < c.stop_threshold ∧
  0.01 < c.multiplier ∧ c.multiplier ≤ 10

instance (c : config) : Decidable (ValidConfig c) := by
  unfold ValidConfig; infer_instance

/-- States of one axis reachable by the event loop: the initial zero state,
followed by any interleaving of timer ticks (one emit_axis call each) and
impulse injections.  An injected impulse is a whole number of hi-res units
and its scale factor lies between min_scale and 1 (the range of the
dampening curve). -/
inductive Reachable (cfg : config) : axis_state → Prop
  | init : Reachable cfg init_state
  | tick {s : axis_state} :
      Reachable cfg s → Reachable cfg (emit_axis cfg s).state
  | impulse {s : axis_state} (raw : ℤ) (scale : ℚ) :
      cfg.min_scale ≤ scale → scale ≤ 1 →
      Reachable cfg s → Reachable cfg (inject cfg s (raw : ℚ) scale).state

/-- States that are the immediate output of one emit_axis call made by the
event loop from a reachable state: either a timer tick, or the immediate
emission step inside impulse injection (the force-emit fallback, which is not
an emit_axis call, may still run afterwards). -/
inductive PostEmit (cfg : config) : axis_state → Prop
  | tick {s : axis_state} :
      Reachable cfg s → PostEmit cfg (emit_axis cfg s).state
  | impulse {s : axis_state} (raw : ℤ) (scale : ℚ) :
      cfg.min_scale ≤ scale → scale ≤ 1 →
      Reachable cfg s →
      PostEmit cfg (emit_axis cfg (add_impulse cfg s (raw : ℚ) scale)).state

/-- Formalisation of the claimed rest invariant: in every valid configuration,
every reachable state produced by one emit_axis call with velocity magnitude
below the stop threshold has zero fractional remainder and zero low-res
carry. -/
def RestInvariantAsStated : Prop :=
  ∀ cfg : config, ValidConfig cfg →
    ∀ s : axis_state, PostEmit cfg s →
      |s.velocity| < cfg.stop_threshold →
      s.emit_accum = 0 ∧ s.lowres_accum = 0

/-- One operation of the event loop as seen by a single axis: a timer tick or
an impulse injection. -/
inductive scroll_op where
  | tick : scroll_op
  | impulse (raw : ℤ) (scale : ℚ) : scroll_op

/-- Running totals of a single-axis emission trace: current state, cumulative
fine (hi-res) units written, cumulative net coarse units written, and the
ghost total of low-res carry discarded by settling resets (the reset branch
of emit_axis zeroes lowres_accum without emitting it). -/
structure trace_acc where
  state : axis_state
  fine : ℤ
  coarse : ℤ
  discarded : ℤ

/-- Low-res carry discarded by an emit_axis call from state s: the reset
branch (velocity magnitude below the stop threshold) zeroes lowres_accum. -/
def reset_discard (cfg : config) (s : axis_state) : ℤ :=
  if |s.velocity| < cfg.stop_threshold then s.lowres_accum else 0

/-- One event-loop operation applied to the running totals. -/
def run_op (cfg : config) (t : trace_acc) (op : scroll_op) : trace_acc :=
  match op with
  | .tick =>
    let r := emit_axis cfg t.state
    { state := r.state, fine := t.fine + r.hires, coarse := t.coarse + r.coarse,
      discarded := t.discarded + reset_discard cfg t.state }
  | .impulse raw scale =>
    let r := inject cfg t.state (raw : ℚ) scale
    { state := r.state, fine := t.fine + r.hires, coarse := t.coarse + r.coarse,
      discarded :=
        t.discarded + reset_discard cfg (add_impulse cfg t.state (raw : ℚ) scale) }

/-- A whole emission sequence starting from the all-zero axis state. -/
def run (cfg : config) (ops : List scroll_op) : trace_acc :=
  ops.foldl (run_op cfg) { state := init_state, fine := 0, coarse := 0, discarded := 0 }

/-- Formalisation of the claimed conservation law: for every valid
configuration and every operation sequence, coarse units times 120 plus the
final low-res carry equals the cumulative fine units. -/
def ConservationAsStated : Prop :=
  ∀ cfg : config, ValidConfig cfg →
    ∀ ops : List scroll_op,
      HIRES_PER_TICK * (run cfg ops).coarse + (run cfg ops).state.lowres_accum =
        (run cfg ops).fine

/-- Mirror of struct rate_tracker (lines 84-89): a 128-slot ring of
nanosecond timestamps.  The array is modelled as a function read modulo the
ring size; head is the next write position and count the number of valid
entries (at most 128 in every state the program constructs). -/
structure rate_tracker where
  timestamps : ℕ → ℤ
  head : ℕ
  count : ℕ

/-- Ring size of the rate tracker (line 54). -/
def RATE_RING_SIZE : ℕ := 128

/-- Rate window in nanoseconds (line 55): 300 ms. -/
def RATE_WINDOW_NS : ℤ := 300000000

/-- Index visited on iteration i of the rate_compute loop (line 118):
most-recent-first scan order. -/
def ring_index (rt : rate_tracker) (i : ℕ) : ℕ :=
  (rt.head + RATE_RING_SIZE - 1 - i) % RATE_RING_SIZE

/-- Timestamps visited by the rate_compute loop, in scan order. -/
def stored (rt : rate_tracker) : List ℤ :=
  (List.range rt.count).map (fun i => rt.timestamps (ring_index rt i))

/-- Mirror of the loop body of rate_compute (lines 116-125): count the
timestamps at or after the cutoff and track the oldest one, starting from
(0, now). -/
def rate_scan (cutoff now : ℤ) (l : List ℤ) : ℕ × ℤ :=
  l.foldl
    (fun acc t =>
      if cutoff ≤ t then (acc.1 + 1, if t < acc.2 then t else acc.2) else acc)
    (0, now)

/-- Mirror of rate_compute (lines 110-135): events per second over the
trailing 300 ms window; 0 when fewer than two samples are in the window or
the spanned time is below one microsecond. -/
def rate_compute (rt : rate_tracker) (now : ℤ) : ℚ :=
  let cutoff := now - RATE_WINDOW_NS
  let s := rate_scan cutoff now (stored rt)
  if s.1 < 2 then 0
  else
    let window_sec : ℚ := ((now - s.2 : ℤ) : ℚ) / 1000000000
    if window_sec < 1 / 1000000 then 0
    else (s.1 : ℚ) / window_sec

/-- Rate computation exactly as the claim words it (no sub-microsecond
guard): keep the stored timestamps within the trailing window, return 0 when
fewer than two remain, otherwise the in-window count divided by the elapsed
seconds between the oldest in-window timestamp and now. -/
def claim_rate (rt : rate_tracker) (now : ℤ) : ℚ :=
  let inwin := (stored rt).filter (fun t => now - RATE_WINDOW_NS ≤ t)
  if inwin.length < 2 then 0
  else
    let oldest := inwin.foldl (fun a t => if t < a then t else a) now
    (inwin.length : ℚ) / (((now - oldest : ℤ) : ℚ) / 1000000000)

/-- Rate computation as the claim words it, amended with the sub-microsecond
guard the code actually has. -/
def claim_rate_guarded (rt : rate_tracker) (now : ℤ) : ℚ :=
  let inwin := (stored rt).filter (fun t => now - RATE_WINDOW_NS ≤ t)
  if inwin.length < 2 then 0
  else
    let oldest := inwin.foldl (fun a t => if t < a then t else a) now
    let window_sec : ℚ := ((now - oldest : ℤ) : ℚ) / 1000000000
    if window_sec < 1 / 1000000 then 0
    else (inwin.length : ℚ) / window_sec

/-- Real-valued view of the struct config fields read by compute_scale. -/
structure configR where
  low_rate : ℝ
  high_rate : ℝ
  min_scale : ℝ

/-- Mirror of compute_scale (lines 154-163): 1 at or below low_rate,
min_scale at or above high_rate, square-root interpolation in between. -/
noncomputable def compute_scale (input_rate : ℝ) (cfg : configR) : ℝ :=
  if input_rate ≤ cfg.low_rate then 1
  else if cfg.high_rate ≤ input_rate then cfg.min_scale
  else
    1 - (1 - cfg.min_scale) *
      Real.sqrt ((input_rate - cfg.low_rate) / (cfg.high_rate - cfg.low_rate))

/-- Transition-band formula of compute_scale (line 162), as a total function:
the square-root interpolation between 1 at low_rate and min_scale at
high_rate. -/
noncomputable def scale_formula (cfg : configR) (r : ℝ) : ℝ :=
  1 - (1 - cfg.min_scale) *
    Real.sqrt ((r - cfg.low_rate) / (cfg.high_rate - cfg.low_rate))

/-- Timer rescheduling on expiry (lines 962-963): the next deadline is the
stored absolute target plus the tick interval; the wake-up time of the expiry
is read but never used in the computation, exactly as in the code. -/
def timer_rearm (next_tick tick_ns wake : ℤ) : ℤ :=
  next_tick + tick_ns

/-- Absolute deadline armed after processing a list of timer expirations with
the given wake-up times, starting from the initial target now0 + tick_ns set
before the loop (lines 722-723). -/
def armed_after (now0 tick_ns : ℤ) (wakes : List ℤ) : ℤ :=
  wakes.foldl (fun target w => timer_rearm target tick_ns w) (now0 + tick_ns)

/-- Iterated timer ticks with no intervening impulses: n emit_axis calls. -/
def tick_iter (cfg : config) (s : axis_state) : ℕ → axis_state
  | 0 => s
  | n + 1 => (emit_axis cfg (tick_iter cfg s n)).state

/-- Negation of an axis state, for the sign-symmetry property. -/
def neg_state (s : axis_state) : axis_state :=
  { velocity := -s.velocity, emit_accum := -s.emit_accum,
    lowres_accum := -s.lowres_accum }

/-- Mirror image of an emission result under axis negation. -/
def mirror_result (r : emit_result) : emit_result :=
  { state := neg_state r.state, hires := -r.hires, coarse := -r.coarse,
    emitted := r.emitted }

/-- Formalisation of the claim that the clamping pass forces every parameter
into its spec section 3 range. -/
def ClampAsStated : Prop :=
  ∀ c : config, ValidConfig (clamp_config c)

/-- Valid configuration exercising the rest-invariant claim: maximal allowed
friction, default thresholds, multiplier 0.55. -/
def cfg_c1 : config :=
  { friction := 0.2, tick_ms := 4, low_rate := 5, high_rate := 30,
    min_scale := 0.3, stop_threshold := 0.5, multiplier := 0.55 }

/-- Configuration for the rest-reset witness: the source defaults. -/
def cfg_c1w : config :=
  { friction := 0.078, tick_ms := 4, low_rate := 5, high_rate := 30,
    min_scale := 0.3, stop_threshold := 0.5, multiplier := 0.5 }

/-- Configuration whose min_scale is far outside (0, 1]: the clamping pass
passes it through unchanged. -/
def cfg_c2 : config :=
  { friction := 0.078, tick_ms := 4, low_rate := 5, high_rate := 30,
    min_scale := 5, stop_threshold := 0.5, multiplier := 0.5 }

/-- Configuration for the decay-step witness. -/
def cfg_c4 : config :=
  { friction := 0.2, tick_ms := 4, low_rate := 5, high_rate := 30,
    min_scale := 0.3, stop_threshold := 0.5, multiplier := 1 }

/-- Axis state for the decay-step witness. -/
def s_c4 : axis_state :=
  { velocity := 1, emit_accum := 0, lowres_accum := 0 }

/-- Valid configuration exercising the conservation claim. -/
def cfg_c5 : config :=
  { friction := 0.2, tick_ms := 4, low_rate := 5, high_rate := 30,
    min_scale := 0.3, stop_threshold := 0.5, multiplier := 1 }

/-- Operation sequence refuting the conservation claim: a small impulse whose
only output is a force-emitted unit, then two ticks; the second tick settles
the axis and discards the pending low-res carry. -/
def ops_c5 : List scroll_op :=
  [scroll_op.impulse 2 1, scroll_op.tick, scroll_op.tick]

/-- Configuration for the force-emit fallback witness. -/
def cfg_c6 : config :=
  { friction := 0.2, tick_ms := 4, low_rate := 5, high_rate := 30,
    min_scale := 0.3, stop_threshold := 0.5, multiplier := 1 }

/-- Configuration for the decay-settling witness. -/
def cfg_c7 : config :=
  { friction := 0.2, tick_ms := 4, low_rate := 5, high_rate := 30,
    min_scale := 0.3, stop_threshold := 0.5, multiplier := 1 }

/-- Axis state for the decay-settling witness. -/
def s_c7 : axis_state :=
  { velocity := 1, emit_accum := 0, lowres_accum := 0 }

/-- Rate tracker refuting the unguarded rate formula: two samples 500 ns
apart, both inside the window. -/
def rt_c8 : rate_tracker :=
  { timestamps := fun i => if i = 0 then 999999500 else if i = 1 then 1000000000 else 0,
    head := 2, count := 2 }

/-- Empty rate tracker for the rate-computation witness. -/
def rt_c8w : rate_tracker :=
  { timestamps := fun _ => 0, head := 0, count := 0 }

/-- Configuration for the force-emit side-effect demonstration. -/
def cfg_c10 : config :=
  { friction := 0.2, tick_ms := 4, low_rate := 5, high_rate := 30,
    min_scale := 0.3, stop_threshold := 0.5, multiplier := 1 }

/-- Axis state just before a force-emit: velocity +0.9, a pending fractional
remainder, no low-res carry. -/
def s_c10 : axis_state :=
  { velocity := 9/10, emit_accum := 1/4, lowres_accum := 0 }

/-! Helper lemmas about truncation toward zero. -/

theorem trunc_sub_bounds (q : ℚ) : -1 < q - (trunc q : ℚ) ∧ q - (trunc q : ℚ) < 1 := by
  unfold trunc
  split_ifs with h
  · constructor
    · have := Int.floor_le q
      linarith
    · have := Int.lt_floor_add_one q
      linarith
  · constructor
    · have := Int.ceil_lt_add_one q
      push_cast at this ⊢
      linarith
    · have := Int.le_ceil q
      linarith

theorem trunc_neg (q : ℚ) : trunc (-q) = -trunc q := by
  unfold trunc
  rcases lt_trichotomy q 0 with h | h | h
  · rw [if_pos (by linarith : (0:ℚ) ≤ -q), if_neg (by linarith : ¬(0:ℚ) ≤ q),
      Int.floor_neg]
  · subst h; simp
  · rw [if_neg (by linarith : ¬(0:ℚ) ≤ -q), if_pos (by linarith : (0:ℚ) ≤ q),
      Int.ceil_neg]

/-! Helper lemmas about the low-res drain loops. -/

theorem drain_pos_go_conserve (fuel : ℕ) :
    ∀ a : ℤ, HIRES_PER_TICK * (drain_pos_go fuel a).1 + (drain_pos_go fuel a).2 = a := by
  induction fuel with
  | zero => intro a; simp [drain_pos_go]
  | succ fuel ih =>
    intro a
    unfold drain_pos_go
    split_ifs with h
    · have := ih (a - HIRES_PER_TICK)
      dsimp only
      linarith
    · simp

theorem drain_neg_go_mirror (fuel : ℕ) :
    ∀ a : ℤ, drain_neg_go fuel a =
      ((drain_pos_go fuel (-a)).1, -(drain_pos_go fuel (-a)).2) := by
  induction fuel with
  | zero => intro a; simp [drain_neg_go, drain_pos_go]
  | succ fuel ih =>
    intro a
    unfold drain_neg_go drain_pos_go
    by_cases h : a ≤ -HIRES_PER_TICK
    · rw [if_pos h, if_pos (by omega : HIRES_PER_TICK ≤ -a)]
      rw [ih (a + HIRES_PER_TICK)]
      have : -(a + HIRES_PER_TICK) = -a - HIRES_PER_TICK := by ring
      rw [this]
    · rw [if_neg h, if_neg (by omega : ¬HIRES_PER_TICK ≤ -a)]
      simp

theorem drain_pos_go_nonneg (fuel : ℕ) :
    ∀ a : ℤ, 0 ≤ a → 0 ≤ (drain_pos_go fuel a).2 := by
  induction fuel with
  | zero => intro a h; simpa [drain_pos_go] using h
  | succ fuel ih =>
    intro a h
    unfold drain_pos_go
    split_ifs with hc
    · exact ih (a - HIRES_PER_TICK) (by unfold HIRES_PER_TICK at hc ⊢; omega)
    · simpa using h

theorem drain_pos_go_lt (fuel : ℕ) :
    ∀ a : ℤ, a.toNat ≤ fuel → (drain_pos_go fuel a).2 < HIRES_PER_TICK := by
  induction fuel with
  | zero =>
    intro a h
    have : a ≤ 0 := by omega
    simp only [drain_pos_go]
    unfold HIRES_PER_TICK
    omega
  | succ fuel ih =>
    intro a h
    unfold drain_pos_go
    split_ifs with hc
    · exact ih (a - HIRES_PER_TICK) (by unfold HIRES_PER_TICK at hc ⊢; omega)
    · simpa using not_le.mp hc

theorem drain_pos_go_gt_neg (fuel : ℕ) :
    ∀ a : ℤ, -HIRES_PER_TICK < a → -HIRES_PER_TICK < (drain_pos_go fuel a).2 := by
  induction fuel with
  | zero => intro a h; simpa [drain_pos_go] using h
  | succ fuel ih =>
    intro a h
    unfold drain_pos_go
    split_ifs with hc
    · exact ih (a - HIRES_PER_TICK) (by unfold HIRES_PER_TICK at hc ⊢; omega)
    · simpa using h

theorem drain_pos_go_small (fuel : ℕ) (a : ℤ) (h : a < HIRES_PER_TICK) :
    drain_pos_go fuel a = (0, a) := by
  cases fuel with
  | zero => rfl
  | succ fuel => unfold drain_pos_go; rw [if_neg (by omega)]

theorem lowres_drain_conserve (a : ℤ) :
    HIRES_PER_TICK * (lowres_drain a).1 + (lowres_drain a).2 = a := by
  simp only [lowres_drain]
  rw [drain_neg_go_mirror]
  dsimp only
  have h1 := drain_pos_go_conserve a.toNat a
  have h2 := drain_pos_go_conserve (- (drain_pos_go a.toNat a).2).toNat
    (- (drain_pos_go a.toNat a).2)
  linarith

theorem lowres_drain_bounds (a : ℤ) :
    -HIRES_PER_TICK < (lowres_drain a).2 ∧ (lowres_drain a).2 < HIRES_PER_TICK := by
  simp only [lowres_drain]
  rw [drain_neg_go_mirror]
  dsimp only
  have hlt : (drain_pos_go a.toNat a).2 < HIRES_PER_TICK :=
    drain_pos_go_lt a.toNat a le_rfl
  have hlt2 : (drain_pos_go (- (drain_pos_go a.toNat a).2).toNat
      (- (drain_pos_go a.toNat a).2)).2 < HIRES_PER_TICK :=
    drain_pos_go_lt _ _ le_rfl
  have hgt2 : -HIRES_PER_TICK < (drain_pos_go (- (drain_pos_go a.toNat a).2).toNat
      (- (drain_pos_go a.toNat a).2)).2 :=
    drain_pos_go_gt_neg _ _ (by omega)
  omega

theorem lowres_drain_neg_of_nonneg (a : ℤ) (ha : 0 ≤ a) :
    lowres_drain (-a) = (-(lowres_drain a).1, -(lowres_drain a).2) := by
  simp only [lowres_drain]
  have hp2 : 0 ≤ (drain_pos_go a.toNat a).2 := drain_pos_go_nonneg a.toNat a ha
  have hfuel0 : (- (drain_pos_go a.toNat a).2).toNat = 0 := by omega
  rw [hfuel0]
  have hstage1 : drain_pos_go (-a).toNat (-a) = (0, -a) :=
    drain_pos_go_small _ _ (by unfold HIRES_PER_TICK; omega)
  rw [hstage1]
  dsimp only
  have hna : (-(-a)).toNat = a.toNat := by omega
  rw [hna, drain_neg_go_mirror, neg_neg]
  simp [drain_neg_go]

theorem lowres_drain_neg (a : ℤ) :
    lowres_drain (-a) = (-(lowres_drain a).1, -(lowres_drain a).2) := by
  rcases le_or_lt 0 a with h | h
  · exact lowres_drain_neg_of_nonneg a h
  · have h2 := lowres_drain_neg_of_nonneg (-a) (by omega)
    rw [neg_neg] at h2
    rw [h2]
    simp

/-! Claim theorems. -/

/-- C1 (counterexample): the rest invariant as stated is false.  In the valid
configuration cfg_c1, injecting one hi-res unit at scale 1 from rest runs one
emit_axis call whose decay brings the velocity from 0.55 to 0.44 — below the
stop threshold 0.5 — while leaving the fractional remainder at 0.11, not 0. -/
theorem rest_invariant_as_stated_false : ¬ RestInvariantAsStated := by
  intro h
  have hv := h cfg_c1 (by with_unfolding_all decide) _
    (PostEmit.impulse (s := init_state) 1 1 (by with_unfolding_all decide)
      (by with_unfolding_all decide) Reachable.init)
    (by with_unfolding_all decide)
  exact absurd hv.1 (by with_unfolding_all decide)

/-- C1 (amended): a tick (one emit_axis call) that observes a velocity
magnitude below the stop threshold at entry resets velocity, fractional
remainder and low-res carry to zero and emits nothing.  A tick whose own
decay brings the velocity below the threshold may leave a nonzero remainder;
the next tick then clears it. -/
theorem rest_reset_on_entry (cfg : config) (s : axis_state)
    (h : |s.velocity| < cfg.stop_threshold) :
    emit_axis cfg s =
      { state := init_state, hires := 0, coarse := 0, emitted := false } := by
  unfold emit_axis
  rw [if_pos h]
  rfl

/-- C1 (witness): the rest-reset theorem applied to the all-zero state in the
default configuration. -/
theorem rest_reset_on_entry_witness :
    |init_state.velocity| < cfg_c1w.stop_threshold ∧
      emit_axis cfg_c1w init_state =
        { state := init_state, hires := 0, coarse := 0, emitted := false } :=
  ⟨by with_unfolding_all decide,
    rest_reset_on_entry cfg_c1w init_state (by with_unfolding_all decide)⟩

/-- C2 (counterexample): the claim that every configuration parameter is
clamped into its spec section 3 range is false: a min_scale of 5 passes
through the clamping code unchanged, far outside (0, 1]. -/
theorem clamp_as_stated_false : ¬ ClampAsStated :=
  fun h => absurd (h cfg_c2) (by with_unfolding_all decide)

/-- C2 (amended): before the scheduler starts, friction is clamped into
[0.01, 0.2], the tick interval into [1, 50] ms and the multiplier into
[0.01, 10] — clamped, never rejected — while min_scale, stop_threshold,
low_rate and high_rate are passed through without any validation. -/
theorem clamp_config_spec (c : config) :
    (0.01 ≤ (clamp_config c).friction ∧ (clamp_config c).friction ≤ 0.2) ∧
    (1 ≤ (clamp_config c).tick_ms ∧ (clamp_config c).tick_ms ≤ 50) ∧
    (0.01 ≤ (clamp_config c).multiplier ∧ (clamp_config c).multiplier ≤ 10) ∧
    (clamp_config c).low_rate = c.low_rate ∧
    (clamp_config c).high_rate = c.high_rate ∧
    (clamp_config c).min_scale = c.min_scale ∧
    (clamp_config c).stop_threshold = c.stop_threshold := by
  unfold clamp_config
  refine ⟨?_, ?_, ?_, rfl, rfl, rfl, rfl⟩
  · dsimp only
    constructor <;> split_ifs <;>
      first | (norm_num at *; try linarith) | linarith
  · dsimp only
    constructor <;> split_ifs <;> omega
  · dsimp only
    constructor <;> split_ifs <;>
      first | (norm_num at *; try linarith) | linarith

/-- C9: drift-free rescheduling.  The deadline armed after processing any
list of timer expirations equals the initial absolute target plus one tick
interval per expiry; the wake-up times influence nothing (the fold sends each
wake time into timer_rearm, which ignores it). -/
theorem drift_free_rescheduling (now0 tick_ns : ℤ) (wakes : List ℤ) :
    armed_after now0 tick_ns wakes = now0 + tick_ns + wakes.length * tick_ns := by
  have general : ∀ (l : List ℤ) (start : ℤ),
      l.foldl (fun target w => timer_rearm target tick_ns w) start =
        start + l.length * tick_ns := by
    intro l
    induction l with
    | nil => intro start; simp
    | cons w l ih =>
      intro start
      rw [List.foldl_cons, ih]
      simp only [timer_rearm, List.length_cons]
      push_cast
      ring
  exact general wakes (now0 + tick_ns)

/-- C10: side effects of the force-emit fallback.  For every axis state it
clears the fractional remainder and debits the emitted unit from the
velocity; concretely, from velocity +0.9 (stop threshold 0.5) it emits +1,
leaves velocity -0.1 — below the stop threshold and of opposite sign — and
the next tick settles the axis to full rest without emitting. -/
theorem force_emit_side_effects :
    (∀ s : axis_state, (force_emit s).1.emit_accum = 0) ∧
    (∀ s : axis_state,
      (force_emit s).1.velocity = s.velocity - ((force_emit s).2 : ℚ) ∧
      (force_emit s).1.lowres_accum = s.lowres_accum + (force_emit s).2) ∧
    force_emit s_c10 =
      ({ velocity := -1/10, emit_accum := 0, lowres_accum := 1 }, 1) ∧
    0 < s_c10.velocity ∧
    (force_emit s_c10).1.velocity < 0 ∧
    |(force_emit s_c10).1.velocity| < cfg_c10.stop_threshold ∧
    emit_axis cfg_c10 (force_emit s_c10).1 =
      { state := init_state, hires := 0, coarse := 0, emitted := false } := by
  refine ⟨?_, ?_, by with_unfolding_all decide, by with_unfolding_all decide,
    by with_unfolding_all decide, by with_unfolding_all decide,
    by with_unfolding_all decide⟩
  · intro s; rfl
  · intro s; exact ⟨rfl, rfl⟩

/-! Branch equations for emit_axis, used by several claims. -/

theorem emit_axis_reset_eq (cfg : config) (s : axis_state)
    (h : |s.velocity| < cfg.stop_threshold) :
    emit_axis cfg s =
      { state := { velocity := 0, emit_accum := 0, lowres_accum := 0 },
        hires := 0, coarse := 0, emitted := false } := by
  unfold emit_axis
  rw [if_pos h]

theorem emit_axis_emit_eq (cfg : config) (s : axis_state)
    (h : ¬ |s.velocity| < cfg.stop_threshold)
    (h0 : trunc (s.emit_accum + (s.velocity - s.velocity * (1 - cfg.friction))) ≠ 0) :
    emit_axis cfg s =
      { state :=
          { velocity := s.velocity * (1 - cfg.friction),
            emit_accum :=
              s.emit_accum + (s.velocity - s.velocity * (1 - cfg.friction)) -
                (trunc (s.emit_accum + (s.velocity - s.velocity * (1 - cfg.friction))) : ℚ),
            lowres_accum :=
              (lowres_drain (s.lowres_accum +
                trunc (s.emit_accum + (s.velocity - s.velocity * (1 - cfg.friction))))).2 },
        hires := trunc (s.emit_accum + (s.velocity - s.velocity * (1 - cfg.friction))),
        coarse :=
          (lowres_drain (s.lowres_accum +
            trunc (s.emit_accum + (s.velocity - s.velocity * (1 - cfg.friction))))).1,
        emitted := true } := by
  unfold emit_axis
  rw [if_neg h]
  dsimp only
  rw [if_pos h0]

theorem emit_axis_noemit_eq (cfg : config) (s : axis_state)
    (h : ¬ |s.velocity| < cfg.stop_threshold)
    (h0 : trunc (s.emit_accum + (s.velocity - s.velocity * (1 - cfg.friction))) = 0) :
    emit_axis cfg s =
      { state :=
          { velocity := s.velocity * (1 - cfg.friction),
            emit_accum :=
              s.emit_accum + (s.velocity - s.velocity * (1 - cfg.friction)) -
                (trunc (s.emit_accum + (s.velocity - s.velocity * (1 - cfg.friction))) : ℚ),
            lowres_accum := s.lowres_accum },
        hires := 0, coarse := 0, emitted := false } := by
  unfold emit_axis
  rw [if_neg h]
  dsimp only
  rw [if_neg (by simpa using h0)]

theorem emit_axis_neg (cfg : config) (s : axis_state) :
    emit_axis cfg (neg_state s) = mirror_result (emit_axis cfg s) := by
  have habs : |(neg_state s).velocity| = |s.velocity| := by
    dsimp only [neg_state]
    exact abs_neg s.velocity
  have hA : -s.emit_accum + (-s.velocity - -s.velocity * (1 - cfg.friction)) =
      -(s.emit_accum + (s.velocity - s.velocity * (1 - cfg.friction))) := by
    ring
  have hS : -s.lowres_accum +
      trunc (-s.emit_accum + (-s.velocity - -s.velocity * (1 - cfg.friction))) =
      -(s.lowres_accum +
        trunc (s.emit_accum + (s.velocity - s.velocity * (1 - cfg.friction)))) := by
    rw [hA, trunc_neg]
    ring
  by_cases hv : |s.velocity| < cfg.stop_threshold
  · rw [emit_axis_reset_eq cfg s hv,
      emit_axis_reset_eq cfg (neg_state s) (by rw [habs]; exact hv)]
    refine emit_result.ext (axis_state.ext ?_ ?_ ?_) ?_ ?_ ?_ <;>
      dsimp only [mirror_result, neg_state] <;> simp
  · by_cases h0 : trunc (s.emit_accum + (s.velocity - s.velocity * (1 - cfg.friction))) = 0
    · rw [emit_axis_noemit_eq cfg s hv h0,
        emit_axis_noemit_eq cfg (neg_state s) (by rw [habs]; exact hv)
          (by dsimp only [neg_state]; rw [hA, trunc_neg, h0, neg_zero])]
      refine emit_result.ext (axis_state.ext ?_ ?_ ?_) ?_ ?_ ?_
      · dsimp only [mirror_result, neg_state]; ring
      · dsimp only [mirror_result, neg_state]
        rw [hA, trunc_neg]
        push_cast
        ring
      · dsimp only [mirror_result, neg_state]
      · dsimp only [mirror_result, neg_state]; simp
      · dsimp only [mirror_result, neg_state]; simp
      · rfl
    · rw [emit_axis_emit_eq cfg s hv h0,
        emit_axis_emit_eq cfg (neg_state s) (by rw [habs]; exact hv)
          (by dsimp only [neg_state]; rw [hA, trunc_neg]; simpa using h0)]
      refine emit_result.ext (axis_state.ext ?_ ?_ ?_) ?_ ?_ ?_
      · dsimp only [mirror_result, neg_state]; ring
      · dsimp only [mirror_result, neg_state]
        rw [hA, trunc_neg]
        push_cast
        ring
      · dsimp only [mirror_result, neg_state]
        rw [hS, lowres_drain_neg]
      · dsimp only [mirror_result, neg_state]
        rw [hA, trunc_neg]
      · dsimp only [mirror_result, neg_state]
        rw [hS, lowres_drain_neg]
      · rfl

/-- C4: one decay-driven emission step.  When the velocity magnitude is at or
above the stop threshold, emit_axis removes velocity times friction from the
velocity, adds exactly that amount to the fractional remainder, extracts the
whole part by truncation toward zero and subtracts it back out, leaving the
remainder strictly inside (-1, 1); and emission is sign-symmetric: negating
an axis state mirrors the entire result. -/
theorem emit_axis_decay_step (cfg : config) (s : axis_state) :
    (cfg.stop_threshold ≤ |s.velocity| →
      (emit_axis cfg s).state.velocity = s.velocity - s.velocity * cfg.friction ∧
      (emit_axis cfg s).hires = trunc (s.emit_accum + s.velocity * cfg.friction) ∧
      (emit_axis cfg s).state.emit_accum =
        s.emit_accum + s.velocity * cfg.friction -
          (trunc (s.emit_accum + s.velocity * cfg.friction) : ℚ) ∧
      -1 < (emit_axis cfg s).state.emit_accum ∧
      (emit_axis cfg s).state.emit_accum < 1) ∧
    emit_axis cfg (neg_state s) = mirror_result (emit_axis cfg s) := by
  constructor
  · intro h
    have hn : ¬ |s.velocity| < cfg.stop_threshold := not_lt.mpr h
    have hacc : s.emit_accum + (s.velocity - s.velocity * (1 - cfg.friction)) =
        s.emit_accum + s.velocity * cfg.friction := by ring
    have hb := trunc_sub_bounds (s.emit_accum + s.velocity * cfg.friction)
    by_cases h0 : trunc (s.emit_accum + (s.velocity - s.velocity * (1 - cfg.friction))) = 0
    · rw [emit_axis_noemit_eq cfg s hn h0]
      rw [hacc] at h0
      dsimp only
      rw [hacc]
      exact ⟨by ring, h0.symm, rfl, hb.1, hb.2⟩
    · rw [emit_axis_emit_eq cfg s hn h0]
      dsimp only
      rw [hacc]
      exact ⟨by ring, rfl, rfl, hb.1, hb.2⟩
  · exact emit_axis_neg cfg s

/-- C4 (witness): the decay-step theorem applied to velocity 1 with friction
0.2 and stop threshold 0.5. -/
theorem emit_axis_decay_step_witness :
    cfg_c4.stop_threshold ≤ |s_c4.velocity| ∧
    (-1 < (emit_axis cfg_c4 s_c4).state.emit_accum ∧
      (emit_axis cfg_c4 s_c4).state.emit_accum < 1) ∧
    emit_axis cfg_c4 (neg_state s_c4) = mirror_result (emit_axis cfg_c4 s_c4) :=
  ⟨by with_unfolding_all decide,
    ⟨((emit_axis_decay_step cfg_c4 s_c4).1 (by with_unfolding_all decide)).2.2.2.1,
      ((emit_axis_decay_step cfg_c4 s_c4).1 (by with_unfolding_all decide)).2.2.2.2⟩,
    (emit_axis_decay_step cfg_c4 s_c4).2⟩

/-! Carry accounting for the conservation claim. -/

theorem emit_axis_not_emitted (cfg : config) (s : axis_state)
    (h : (emit_axis cfg s).emitted = false) :
    (emit_axis cfg s).hires = 0 ∧ (emit_axis cfg s).coarse = 0 := by
  by_cases hv : |s.velocity| < cfg.stop_threshold
  · rw [emit_axis_reset_eq cfg s hv]
    exact ⟨rfl, rfl⟩
  · by_cases h0 : trunc (s.emit_accum + (s.velocity - s.velocity * (1 - cfg.friction))) = 0
    · rw [emit_axis_noemit_eq cfg s hv h0]
      exact ⟨rfl, rfl⟩
    · rw [emit_axis_emit_eq cfg s hv h0] at h
      exact absurd h (by simp)

theorem emit_axis_carry (cfg : config) (s : axis_state) :
    (emit_axis cfg s).state.lowres_accum =
      s.lowres_accum + (emit_axis cfg s).hires -
        HIRES_PER_TICK * (emit_axis cfg s).coarse - reset_discard cfg s := by
  unfold reset_discard
  by_cases hv : |s.velocity| < cfg.stop_threshold
  · rw [emit_axis_reset_eq cfg s hv, if_pos hv]
    dsimp only
    ring
  · rw [if_neg hv]
    by_cases h0 : trunc (s.emit_accum + (s.velocity - s.velocity * (1 - cfg.friction))) = 0
    · rw [emit_axis_noemit_eq cfg s hv h0]
      dsimp only
      ring
    · rw [emit_axis_emit_eq cfg s hv h0]
      dsimp only
      have hc := lowres_drain_conserve (s.lowres_accum +
        trunc (s.emit_accum + (s.velocity - s.velocity * (1 - cfg.friction))))
      linarith

theorem inject_carry (cfg : config) (s : axis_state) (raw scale : ℚ) :
    (inject cfg s raw scale).state.lowres_accum =
      s.lowres_accum + (inject cfg s raw scale).hires -
        HIRES_PER_TICK * (inject cfg s raw scale).coarse -
        reset_discard cfg (add_impulse cfg s raw scale) := by
  have hlow : (add_impulse cfg s raw scale).lowres_accum = s.lowres_accum := rfl
  have hr := emit_axis_carry cfg (add_impulse cfg s raw scale)
  rw [hlow] at hr
  unfold inject
  dsimp only
  split_ifs with hc
  · have hz := emit_axis_not_emitted cfg (add_impulse cfg s raw scale) hc.1
    have hfe : ∀ t : axis_state,
        (force_emit t).1.lowres_accum = t.lowres_accum + (force_emit t).2 :=
      fun t => rfl
    dsimp only
    rw [hfe, hz.2]
    rw [hz.1, hz.2] at hr
    linarith
  · exact hr

theorem run_op_invariant (cfg : config) (t : trace_acc) (op : scroll_op)
    (h : HIRES_PER_TICK * t.coarse + t.state.lowres_accum + t.discarded = t.fine) :
    HIRES_PER_TICK * (run_op cfg t op).coarse + (run_op cfg t op).state.lowres_accum +
      (run_op cfg t op).discarded = (run_op cfg t op).fine := by
  cases op with
  | tick =>
    dsimp only [run_op]
    have hc := emit_axis_carry cfg t.state
    linarith
  | impulse raw scale =>
    dsimp only [run_op]
    have hc := inject_carry cfg t.state (raw : ℚ) scale
    linarith

theorem run_foldl_invariant (cfg : config) :
    ∀ (l : List scroll_op) (t : trace_acc),
      HIRES_PER_TICK * t.coarse + t.state.lowres_accum + t.discarded = t.fine →
      HIRES_PER_TICK * (l.foldl (run_op cfg) t).coarse +
        (l.foldl (run_op cfg) t).state.lowres_accum +
        (l.foldl (run_op cfg) t).discarded = (l.foldl (run_op cfg) t).fine := by
  intro l
  induction l with
  | nil => intro t h; exact h
  | cons op l ih =>
    intro t h
    rw [List.foldl_cons]
    exact ih (run_op cfg t op) (run_op_invariant cfg t op h)

/-- C5 (counterexample): conservation as stated is false.  In the valid
configuration cfg_c5, the sequence ops_c5 force-emits one fine unit (so the
low-res carry becomes 1), then a later tick settles the axis and zeroes the
carry without emitting: afterwards coarse times 120 plus the final carry is
0, but one fine unit was emitted. -/
theorem conservation_as_stated_false : ¬ ConservationAsStated :=
  fun h =>
    absurd (h cfg_c5 (by with_unfolding_all decide) ops_c5)
      (by with_unfolding_all decide)

/-- C5 (amended): conservation with settling resets accounted.  For every
configuration and every operation sequence, coarse units times 120 plus the
final low-res carry plus the carry discarded by settling resets equals the
cumulative fine units; when no settling reset occurs the discarded total is 0
and the claimed equality holds.  Moreover one emit_axis call drains its
low-res accumulator one coarse unit per 120-unit boundary crossed: the drain
satisfies 120 times the coarse count plus the final accumulator equals the
input, with the final accumulator strictly inside (-120, 120). -/
theorem conservation_accounting :
    (∀ (cfg : config) (ops : List scroll_op),
      HIRES_PER_TICK * (run cfg ops).coarse + (run cfg ops).state.lowres_accum +
        (run cfg ops).discarded = (run cfg ops).fine) ∧
    (∀ a : ℤ,
      HIRES_PER_TICK * (lowres_drain a).1 + (lowres_drain a).2 = a ∧
      -HIRES_PER_TICK < (lowres_drain a).2 ∧ (lowres_drain a).2 < HIRES_PER_TICK) := by
  constructor
  · intro cfg ops
    exact run_foldl_invariant cfg ops
      { state := init_state, fine := 0, coarse := 0, discarded := 0 }
      (by simp [init_state])
  · intro a
    exact ⟨lowres_drain_conserve a, (lowres_drain_bounds a).1, (lowres_drain_bounds a).2⟩

/-- C6: force-emit fallback.  If the immediate emission step after an impulse
injection wrote nothing while the remaining velocity magnitude is at or above
the (positive) stop threshold, the injection path emits exactly one fine unit
carrying the sign of the velocity, debits exactly that unit from the
velocity, clears the fractional remainder, accumulates the unit into the
low-res carry without draining it, and reports an emission. -/
theorem force_emit_fallback_spec (cfg : config) (s : axis_state) (raw scale : ℚ)
    (r : emit_result) (hr : r = emit_axis cfg (add_impulse cfg s raw scale))
    (hts : 0 < cfg.stop_threshold)
    (hemit : r.emitted = false)
    (hge : cfg.stop_threshold ≤ |r.state.velocity|) :
    ((0 < r.state.velocity ∧ (inject cfg s raw scale).hires = 1) ∨
      (r.state.velocity < 0 ∧ (inject cfg s raw scale).hires = -1)) ∧
    (inject cfg s raw scale).state.velocity =
      r.state.velocity - ((inject cfg s raw scale).hires : ℚ) ∧
    (inject cfg s raw scale).state.emit_accum = 0 ∧
    (inject cfg s raw scale).state.lowres_accum =
      r.state.lowres_accum + (inject cfg s raw scale).hires ∧
    (inject cfg s raw scale).coarse = r.coarse ∧
    (inject cfg s raw scale).emitted = true := by
  subst hr
  unfold inject
  dsimp only
  rw [if_pos ⟨hemit, hge⟩]
  unfold force_emit
  dsimp only
  by_cases hpos : 0 < (emit_axis cfg (add_impulse cfg s raw scale)).state.velocity
  · rw [if_pos hpos]
    exact ⟨Or.inl ⟨hpos, rfl⟩, rfl, rfl, rfl, rfl, rfl⟩
  · rw [if_neg hpos]
    have hne : (emit_axis cfg (add_impulse cfg s raw scale)).state.velocity ≠ 0 := by
      intro h0
      rw [h0] at hge
      simp at hge
      linarith
    have hneg : (emit_axis cfg (add_impulse cfg s raw scale)).state.velocity < 0 :=
      lt_of_le_of_ne (le_of_not_lt hpos) hne
    exact ⟨Or.inr ⟨hneg, rfl⟩, rfl, rfl, rfl, rfl, rfl⟩

/-- C6 (witness): one hi-res impulse of one unit at scale 1 with multiplier 1
and friction 0.2 leaves velocity 0.8 after the immediate emission step, which
wrote nothing; the fallback emits one +1 unit. -/
theorem force_emit_fallback_spec_witness :
    0 < cfg_c6.stop_threshold ∧
    (emit_axis cfg_c6 (add_impulse cfg_c6 init_state 1 1)).emitted = false ∧
    cfg_c6.stop_threshold ≤
      |(emit_axis cfg_c6 (add_impulse cfg_c6 init_state 1 1)).state.velocity| ∧
    (inject cfg_c6 init_state 1 1).hires = 1 ∧
    (inject cfg_c6 init_state 1 1).state.emit_accum = 0 ∧
    (inject cfg_c6 init_state 1 1).emitted = true := by
  refine ⟨by with_unfolding_all decide, by with_unfolding_all decide,
    by with_unfolding_all decide, ?_⟩
  have h := force_emit_fallback_spec cfg_c6 init_state 1 1 _ rfl
    (by with_unfolding_all decide) (by with_unfolding_all decide)
    (by with_unfolding_all decide)
  rcases h.1 with ⟨_, h1⟩ | ⟨hneg, _⟩
  · exact ⟨h1, h.2.2.1, h.2.2.2.2.2⟩
  · exact absurd hneg (by with_unfolding_all decide)

/-! Velocity decay lemmas for the settling claim. -/

theorem emit_axis_velocity_noreset (cfg : config) (s : axis_state)
    (h : ¬ |s.velocity| < cfg.stop_threshold) :
    (emit_axis cfg s).state.velocity = s.velocity * (1 - cfg.friction) := by
  by_cases h0 : trunc (s.emit_accum + (s.velocity - s.velocity * (1 - cfg.friction))) = 0
  · rw [emit_axis_noemit_eq cfg s h h0]
  · rw [emit_axis_emit_eq cfg s h h0]

theorem emit_axis_velocity_abs_le (cfg : config) (s : axis_state)
    (hf0 : 0 ≤ cfg.friction) (hf1 : cfg.friction ≤ 1) :
    |(emit_axis cfg s).state.velocity| ≤ |s.velocity| := by
  by_cases hv : |s.velocity| < cfg.stop_threshold
  · rw [emit_axis_reset_eq cfg s hv]
    dsimp only
    simp [abs_nonneg]
  · rw [emit_axis_velocity_noreset cfg s hv]
    calc |s.velocity * (1 - cfg.friction)|
        = |s.velocity| * |1 - cfg.friction| := abs_mul _ _
      _ = |s.velocity| * (1 - cfg.friction) := by
          rw [abs_of_nonneg (show (0 : ℚ) ≤ 1 - cfg.friction by linarith)]
      _ ≤ |s.velocity| * 1 :=
          mul_le_mul_of_nonneg_left (by linarith) (abs_nonneg _)
      _ = |s.velocity| := mul_one _

theorem tick_iter_geom (cfg : config) (s : axis_state) (n : ℕ)
    (h : ∀ m, m < n → cfg.stop_threshold ≤ |(tick_iter cfg s m).velocity|) :
    (tick_iter cfg s n).velocity = s.velocity * (1 - cfg.friction) ^ n := by
  induction n with
  | zero => simp [tick_iter]
  | succ n ih =>
    have hm : ∀ m, m < n → cfg.stop_threshold ≤ |(tick_iter cfg s m).velocity| :=
      fun m hmn => h m (Nat.lt_succ_of_lt hmn)
    have hstep : tick_iter cfg s (n + 1) = (emit_axis cfg (tick_iter cfg s n)).state := rfl
    rw [hstep,
      emit_axis_velocity_noreset cfg _ (not_lt.mpr (h n (Nat.lt_succ_self n))),
      ih hm]
    ring

theorem tick_iter_below_stays (cfg : config) (s : axis_state)
    (hts : 0 < cfg.stop_threshold) (n : ℕ)
    (h : |(tick_iter cfg s n).velocity| < cfg.stop_threshold) :
    ∀ m, n ≤ m → |(tick_iter cfg s m).velocity| < cfg.stop_threshold := by
  intro m hm
  induction m, hm using Nat.le_induction with
  | base => exact h
  | succ m hm ih =>
    have hstep : tick_iter cfg s (m + 1) = (emit_axis cfg (tick_iter cfg s m)).state := rfl
    rw [hstep, emit_axis_reset_eq cfg _ ih]
    dsimp only
    simpa using hts

/-- C7: decay monotonicity and finite settling.  For friction in (0, 1), a
positive stop threshold and a positive initial velocity, repeated ticks with
no intervening impulses produce a non-increasing sequence of velocity
magnitudes, and after finitely many ticks the velocity magnitude stays below
the stop threshold forever. -/
theorem decay_monotone_settles (cfg : config) (s : axis_state)
    (hf0 : 0 < cfg.friction) (hf1 : cfg.friction < 1)
    (hts : 0 < cfg.stop_threshold) (hv : 0 < s.velocity) :
    (∀ n, |(tick_iter cfg s (n + 1)).velocity| ≤ |(tick_iter cfg s n).velocity|) ∧
    (∃ N, ∀ n, N ≤ n → |(tick_iter cfg s n).velocity| < cfg.stop_threshold) := by
  constructor
  · intro n
    exact emit_axis_velocity_abs_le cfg (tick_iter cfg s n) (le_of_lt hf0) (le_of_lt hf1)
  · obtain ⟨N, hN⟩ : ∃ N : ℕ, s.velocity * (1 - cfg.friction) ^ N < cfg.stop_threshold := by
      obtain ⟨N, hN⟩ :=
        exists_pow_lt_of_lt_one (div_pos hts hv) (by linarith : 1 - cfg.friction < 1)
      refine ⟨N, ?_⟩
      rw [lt_div_iff hv] at hN
      calc s.velocity * (1 - cfg.friction) ^ N
          = (1 - cfg.friction) ^ N * s.velocity := mul_comm _ _
        _ < cfg.stop_threshold := hN
    by_cases hall : ∀ m, m < N → cfg.stop_threshold ≤ |(tick_iter cfg s m).velocity|
    · have hlt : |(tick_iter cfg s N).velocity| < cfg.stop_threshold := by
        rw [tick_iter_geom cfg s N hall,
          abs_of_nonneg (mul_nonneg (le_of_lt hv) (pow_nonneg (by linarith) N))]
        exact hN
      exact ⟨N, tick_iter_below_stays cfg s hts N hlt⟩
    · push_neg at hall
      obtain ⟨m, _, hm⟩ := hall
      exact ⟨m, tick_iter_below_stays cfg s hts m hm⟩

/-- C7 (witness): the settling theorem applied to velocity 1, friction 0.2,
stop threshold 0.5. -/
theorem decay_monotone_settles_witness :
    0 < cfg_c7.friction ∧ cfg_c7.friction < 1 ∧ 0 < cfg_c7.stop_threshold ∧
    0 < s_c7.velocity ∧
    ((∀ n, |(tick_iter cfg_c7 s_c7 (n + 1)).velocity| ≤
        |(tick_iter cfg_c7 s_c7 n).velocity|) ∧
      (∃ N, ∀ n, N ≤ n →
        |(tick_iter cfg_c7 s_c7 n).velocity| < cfg_c7.stop_threshold)) :=
  ⟨by with_unfolding_all decide, by with_unfolding_all decide,
    by with_unfolding_all decide, by with_unfolding_all decide,
    decay_monotone_settles cfg_c7 s_c7 (by with_unfolding_all decide)
      (by with_unfolding_all decide) (by with_unfolding_all decide)
      (by with_unfolding_all decide)⟩

/-! The rate_compute scan loop counts and minimises exactly the in-window
timestamps. -/

theorem rate_scan_spec (cutoff : ℤ) :
    ∀ (l : List ℤ) (n : ℕ) (old : ℤ),
      l.foldl (fun acc t =>
          if cutoff ≤ t then (acc.1 + 1, if t < acc.2 then t else acc.2) else acc)
        (n, old) =
      (n + (l.filter (fun t => cutoff ≤ t)).length,
        (l.filter (fun t => cutoff ≤ t)).foldl
          (fun a t => if t < a then t else a) old) := by
  intro l
  induction l with
  | nil => intro n old; simp
  | cons t l ih =>
    intro n old
    by_cases h : cutoff ≤ t
    · rw [List.foldl_cons]
      dsimp only
      rw [if_pos h, ih]
      have hf : (t :: l).filter (fun x => cutoff ≤ x) =
          t :: l.filter (fun x => cutoff ≤ x) := by
        simp [List.filter_cons, h]
      rw [hf, List.length_cons, List.foldl_cons]
      exact Prod.ext (by omega) rfl
    · rw [List.foldl_cons]
      dsimp only
      rw [if_neg h, ih]
      have hf : (t :: l).filter (fun x => cutoff ≤ x) =
          l.filter (fun x => cutoff ≤ x) := by
        simp [List.filter_cons, h]
      rw [hf]

/-- C8 (counterexample): the claimed rate formula omits the sub-microsecond
guard.  With two stored timestamps 500 ns apart (both inside the 300 ms
window), rate_compute returns 0 while the claimed count-over-elapsed formula
returns 4000000 events per second. -/
theorem rate_compute_claim_false :
    rate_compute rt_c8 1000000000 ≠ claim_rate rt_c8 1000000000 ∧
    rate_compute rt_c8 1000000000 = 0 ∧
    claim_rate rt_c8 1000000000 = 4000000 := by
  have hstored : stored rt_c8 = [1000000000, 999999500] := by
    with_unfolding_all decide
  have h1 : rate_compute rt_c8 1000000000 = 0 := by
    unfold rate_compute rate_scan RATE_WINDOW_NS
    rw [hstored]
    norm_num
  have h2 : claim_rate rt_c8 1000000000 = 4000000 := by
    unfold claim_rate RATE_WINDOW_NS
    rw [hstored]
    norm_num
  refine ⟨?_, h1, h2⟩
  rw [h1, h2]
  norm_num

/-- C8 (amended): rate_compute considers exactly the stored timestamps inside
the trailing 300 ms window and returns their count divided by the elapsed
seconds between the oldest in-window timestamp and now, except that it
returns 0 when fewer than 2 samples are in the window or when the elapsed
time is below one microsecond; and the dampening curve maps rate 0 to scale 1
(full responsiveness) whenever low_rate is nonnegative. -/
theorem rate_compute_spec :
    (∀ (rt : rate_tracker) (now : ℤ),
      rate_compute rt now = claim_rate_guarded rt now) ∧
    (∀ cfg : configR, 0 ≤ cfg.low_rate → compute_scale 0 cfg = 1) := by
  constructor
  · intro rt now
    unfold rate_compute claim_rate_guarded rate_scan
    dsimp only
    rw [rate_scan_spec]
    simp only [Nat.zero_add]
  · intro cfg h
    unfold compute_scale
    rw [if_pos h]

/-- C8 (witness): the refinement theorem applied to the empty tracker and the
curve fact applied to the default thresholds. -/
theorem rate_compute_spec_witness :
    rate_compute rt_c8w 0 = claim_rate_guarded rt_c8w 0 ∧
    (0 : ℝ) ≤ 5 ∧
    compute_scale 0 { low_rate := 5, high_rate := 30, min_scale := 0.3 } = 1 :=
  ⟨rate_compute_spec.1 rt_c8w 0, by norm_num,
    rate_compute_spec.2 { low_rate := 5, high_rate := 30, min_scale := 0.3 }
      (by norm_num)⟩

/-- C3: the dampening curve.  For low_rate < high_rate and min_scale in
(0, 1]: the scale is 1 at or below low_rate, min_scale at or above high_rate,
the square-root interpolation strictly inside the band; the result always
lies in [min_scale, 1]; and the curve is continuous and non-increasing across
the closed transition band. -/
theorem compute_scale_spec (cfg : configR)
    (hlh : cfg.low_rate < cfg.high_rate)
    (hm0 : 0 < cfg.min_scale) (hm1 : cfg.min_scale ≤ 1) :
    (∀ r : ℝ, r ≤ cfg.low_rate → compute_scale r cfg = 1) ∧
    (∀ r : ℝ, cfg.high_rate ≤ r → compute_scale r cfg = cfg.min_scale) ∧
    (∀ r : ℝ, cfg.low_rate < r → r < cfg.high_rate →
      compute_scale r cfg =
        1 - (1 - cfg.min_scale) *
          Real.sqrt ((r - cfg.low_rate) / (cfg.high_rate - cfg.low_rate))) ∧
    (∀ r : ℝ, cfg.min_scale ≤ compute_scale r cfg ∧ compute_scale r cfg ≤ 1) ∧
    ContinuousOn (fun r => compute_scale r cfg)
      (Set.Icc cfg.low_rate cfg.high_rate) ∧
    AntitoneOn (fun r => compute_scale r cfg)
      (Set.Icc cfg.low_rate cfg.high_rate) := by
  have hd : 0 < cfg.high_rate - cfg.low_rate := sub_pos.mpr hlh
  have h1 : ∀ r : ℝ, r ≤ cfg.low_rate → compute_scale r cfg = 1 := by
    intro r h
    unfold compute_scale
    rw [if_pos h]
  have h2 : ∀ r : ℝ, cfg.high_rate ≤ r → compute_scale r cfg = cfg.min_scale := by
    intro r h
    unfold compute_scale
    rw [if_neg (not_le.mpr (lt_of_lt_of_le hlh h)), if_pos h]
  have h3 : ∀ r : ℝ, cfg.low_rate < r → r < cfg.high_rate →
      compute_scale r cfg = scale_formula cfg r := by
    intro r ha hb
    unfold compute_scale scale_formula
    rw [if_neg (not_le.mpr ha), if_neg (not_le.mpr hb)]
  have hgbound : ∀ r : ℝ, cfg.low_rate ≤ r → r ≤ cfg.high_rate →
      cfg.min_scale ≤ scale_formula cfg r ∧ scale_formula cfg r ≤ 1 := by
    intro r ha hb
    have ht1 : (r - cfg.low_rate) / (cfg.high_rate - cfg.low_rate) ≤ 1 := by
      rw [div_le_one hd]
      linarith
    have hs0 : 0 ≤ Real.sqrt ((r - cfg.low_rate) / (cfg.high_rate - cfg.low_rate)) :=
      Real.sqrt_nonneg _
    have hs1 : Real.sqrt ((r - cfg.low_rate) / (cfg.high_rate - cfg.low_rate)) ≤ 1 :=
      Real.sqrt_le_one.mpr ht1
    have hmul1 : (1 - cfg.min_scale) *
        Real.sqrt ((r - cfg.low_rate) / (cfg.high_rate - cfg.low_rate)) ≤
        (1 - cfg.min_scale) * 1 :=
      mul_le_mul_of_nonneg_left hs1 (by linarith)
    have hmul0 : 0 ≤ (1 - cfg.min_scale) *
        Real.sqrt ((r - cfg.low_rate) / (cfg.high_rate - cfg.low_rate)) :=
      mul_nonneg (by linarith) hs0
    unfold scale_formula
    constructor <;> linarith
  have h4 : ∀ r : ℝ, cfg.min_scale ≤ compute_scale r cfg ∧ compute_scale r cfg ≤ 1 := by
    intro r
    rcases le_or_lt r cfg.low_rate with h | h
    · rw [h1 r h]
      exact ⟨hm1, le_refl 1⟩
    · rcases le_or_lt cfg.high_rate r with h' | h'
      · rw [h2 r h']
        exact ⟨le_refl _, hm1⟩
      · rw [h3 r h h']
        exact hgbound r (le_of_lt h) (le_of_lt h')
  have heq : Set.EqOn (fun r => compute_scale r cfg) (scale_formula cfg)
      (Set.Icc cfg.low_rate cfg.high_rate) := by
    intro r hr
    obtain ⟨ha, hb⟩ := hr
    dsimp only
    rcases eq_or_lt_of_le ha with ha' | ha'
    · rw [h1 r (le_of_eq ha'.symm)]
      unfold scale_formula
      rw [← ha', sub_self, zero_div, Real.sqrt_zero]
      ring
    · rcases eq_or_lt_of_le hb with hb' | hb'
      · rw [h2 r (ge_of_eq hb')]
        unfold scale_formula
        rw [hb', div_self (ne_of_gt hd), Real.sqrt_one]
        ring
      · exact h3 r ha' hb'
  have hgcont : Continuous (scale_formula cfg) := by
    unfold scale_formula
    exact continuous_const.sub (continuous_const.mul
      (Real.continuous_sqrt.comp ((continuous_id.sub continuous_const).div_const _)))
  have h5 : ContinuousOn (fun r => compute_scale r cfg)
      (Set.Icc cfg.low_rate cfg.high_rate) :=
    hgcont.continuousOn.congr heq
  have h6 : AntitoneOn (fun r => compute_scale r cfg)
      (Set.Icc cfg.low_rate cfg.high_rate) := by
    intro a ha b hb hab
    have hea := heq ha
    have heb := heq hb
    dsimp only at hea heb ⊢
    rw [hea, heb]
    unfold scale_formula
    have hsq : Real.sqrt ((a - cfg.low_rate) / (cfg.high_rate - cfg.low_rate)) ≤
        Real.sqrt ((b - cfg.low_rate) / (cfg.high_rate - cfg.low_rate)) := by
      apply Real.sqrt_le_sqrt
      apply (div_le_div_right hd).mpr
      linarith
    have hmono := mul_le_mul_of_nonneg_left hsq
      (show (0 : ℝ) ≤ 1 - cfg.min_scale by linarith)
    linarith
  exact ⟨h1, h2, h3, h4, h5, h6⟩

/-- C3 (witness): the curve theorem applied to the default configuration
low_rate 5, high_rate 30, min_scale 0.3, evaluated below the band and inside
the band. -/
theorem compute_scale_spec_witness :
    ((5 : ℝ) < 30 ∧ (0 : ℝ) < 0.3 ∧ (0.3 : ℝ) ≤ 1) ∧
    ((0.3 : ℝ) ≤ compute_scale 10 { low_rate := 5, high_rate := 30, min_scale := 0.3 } ∧
      compute_scale 10 { low_rate := 5, high_rate := 30, min_scale := 0.3 } ≤ 1) ∧
    compute_scale 3 { low_rate := 5, high_rate := 30, min_scale := 0.3 } = 1 :=
  ⟨⟨by norm_num, by norm_num, by norm_num⟩,
    (compute_scale_spec { low_rate := 5, high_rate := 30, min_scale := 0.3 }
      (by norm_num) (by norm_num) (by norm_num)).2.2.2.1 10,
    (compute_scale_spec { low_rate := 5, high_rate := 30, min_scale := 0.3 }
      (by norm_num) (by norm_num) (by norm_num)).1 3 (by norm_num)⟩
